import Mathlib

/-!
A shallow embedding of gitlab-fingerprinter (src/gitlab-fingerprinter.go),
and proofs about the Version Resolution Engine it implements.

Conventions of the embedding:
* `time.Time` values are `Int`: the signed offset, in seconds, from Go's zero
  time. `t.Before u` is `t < u`, `t.Sub u` is `t - u` (a `time.Duration`,
  also an `Int`), `t.IsZero` is `t = 0`, and `time.Now()` is `Env.now`.
* The external HTTP collaborators (manifest fetch, hash-dictionary fetch,
  EOL fetch, tag fetch) and the stdlib date helpers are parameters of `Env`
  and `TargetInput`: the engine receives their decoded outcomes.
* Run-aborting exits (`log.Fatal`, `os.Exit(1)`, a runtime panic) are the
  `.error` case of `Except String _`; `main` prints nothing in that case.
* A Go `map` read whose key is unique (the hash-dictionary loop of `main`,
  the tag cache) is association-list lookup.
-/

/-- Go `strings.Replace(s, "-ee", "", -1)` on a char list: delete every
non-overlapping occurrence of `-ee`, scanning left to right. -/
def removeEE : List Char → List Char
  | '-' :: 'e' :: 'e' :: rest => removeEE rest
  | c :: rest => c :: removeEE rest
  | [] => []

/-- Go `strings.Split(s, ".")` on a char list: `n` dots give `n + 1` pieces;
the empty string gives one empty piece. -/
def splitOnDot : List Char → List (List Char)
  | [] => [[]]
  | c :: rest =>
    if c = '.' then [] :: splitOnDot rest
    else
      match splitOnDot rest with
      | p :: ps => (c :: p) :: ps
      | [] => [[c]]

/-- Go `strings.Contains(s, pat)` on char lists. -/
def hasSub (pat : List Char) : List Char → Bool
  | [] => pat.isEmpty
  | c :: rest => pat.isPrefixOf (c :: rest) || hasSub pat rest

/-- Go map lookup with unique keys, as the hash-dictionary loop of `main`
(lines 180-181) and the tag cache read it. -/
def alookup {α : Type} (k : String) : List (String × α) → Option α
  | [] => none
  | (k2, v) :: rest => if k = k2 then some v else alookup k rest

/-- `GitlabTag` (source lines 29-33), with `CreatedAtDate` already decoded. -/
structure GitlabTag where
  name : String
  createdAtDate : Int
  deriving DecidableEq, Repr

/-- `GitlabVersion` (source lines 35-42): one endoflife.date record. -/
structure GitlabVersion where
  cycle : String
  eol : String
  latest : String
  latestReleaseDate : String
  releaseDate : String
  deriving DecidableEq, Repr

/-- One entry of `HashDictionary` (source lines 24-27). -/
structure HashDictEntry where
  build : String
  versions : List String
  deriving DecidableEq, Repr

/-- `Manifest` (source lines 44-48), with the Last-Modified header decoded. -/
structure Manifest where
  hash : String
  lastModifiedDate : Int
  outputPath : String
  deriving DecidableEq, Repr

/-- `Result` (source lines 50-57). -/
structure Result where
  target : String
  version : String
  edition : String
  endOfLife : Bool
  outdated : Bool
  warnings : List String
  deriving DecidableEq, Repr

/-- `Error` (source lines 59-63). -/
structure Error where
  target : String
  error : String
  details : String
  deriving DecidableEq, Repr

/-- `FinalOutput` (source lines 65-68). -/
structure FinalOutput where
  results : List Result
  errors : List Error
  deriving DecidableEq, Repr

/-- One target of a run, after URL validation: the host `main` reports on,
the full manifest URL, and the outcome of the external manifest fetch
(`getManifest`, lines 434-471): the decoded manifest, or the fetch error. -/
structure TargetInput where
  host : String
  url : String
  manifest : Except String Manifest
  deriving Repr

/-- The `gitlabTagsCache` global (line 71), threaded explicitly. -/
abbrev Cache := List (String × List GitlabTag)

/-- The run's fixed context: the two shared datasets `main` loads up front,
the external tag-history fetch behind `getTagsForMinorVersion`, the clock,
and the stdlib date helpers, kept abstract: `parseDate` is
`time.Parse("2006-01-02", _)` (line 253), `today` the date value the
`Format`/`Parse` roundtrip of lines 259-260 yields, `timeStr` the `%s`
formatting of a `time.Time`. -/
structure Env where
  hashDictionary : List (String × HashDictEntry)
  gitlabVersionsInfo : List GitlabVersion
  fetchTags : String → Except String (List GitlabTag)
  now : Int
  today : Int
  parseDate : String → Option Int
  timeStr : Int → String

/-- The `hashesURL` constant (line 21). -/
def hashesURL : String :=
  "https://raw.githubusercontent.com/righel/gitlab-version-nse/main/gitlab_hashes.json"

/-- The message of the runtime panic raised by `parts[:2]` on a slice with
fewer than two elements (lines 213-214 and 249-250). -/
def panicSliceMsg : String := "panic: runtime error: slice bounds out of range"

/-- The `os.Exit(1)` of the date-parse failure (lines 254-257). -/
def dateExitMsg : String := "Error parsing date"

/-- The too-new-to-index message (lines 293-295). The Go code passes it to
`append` as a plain string argument, so its `%s` verb is never formatted. -/
def tooNewWarning : String :=
  "Could not fingerprint the version as the hash was not found in '%s'. However, the installed version seems to be less than 24 hours old and is likely not indexed yet (which happens once a day). It's therefore safe to assume that it's running a version released in the last 24 hours."

/-- Line 243: `strings.Replace(strings.Replace(tag, "v", "", -1), "-ee", "", -1)`:
delete every occurrence of `v`, then every occurrence of `-ee`. -/
def normalizeTagName (s : String) : String :=
  String.mk (removeEE (s.data.filter (fun c => c ≠ 'v')))

/-- Lines 249-250 (and 213-214): split on `.`, slice the first two parts,
join with `.`. Go panics when fewer than two parts exist (`parts[:2]` on a
shorter slice); `none` models that panic. -/
def minorOfVersion (v : String) : Option String :=
  match splitOnDot v.data with
  | p1 :: p2 :: _ => some (String.mk (p1 ++ '.' :: p2))
  | _ => none

/-- Lines 212-217: one pass over `info.Versions`, collecting each version's
minor version (a panic propagates as `none`) and remembering the last one
seen (`resultMinorVersion`, zero value `""`). -/
def computeMinors (versions : List String) : Option (List String × String) :=
  versions.foldl
    (fun acc v =>
      match acc, minorOfVersion v with
      | some (ms, _), some mi => some (ms ++ [mi], mi)
      | _, _ => none)
    (some ([], ""))

/-- Lines 231-241, one iteration of the nearest-tag loop. The state is
`(closestDate, closestDateDifference, closestDateTag)`, initially the Go
zero values `(0, 0, "")`. -/
def closestTagStep (ref : Int) (s : Int × Int × String) (tag : GitlabTag) :
    Int × Int × String :=
  if tag.createdAtDate < ref then
    let difference := ref - tag.createdAtDate
    if s.1 = 0 ∨ difference < s.2.1 then
      (tag.createdAtDate, difference, tag.name)
    else s
  else s

/-- Lines 203-241: the tag the nearest-tag loop leaves in `closestDateTag`
(the empty string when no tag qualified). -/
def closestTagName (ref : Int) (tags : List GitlabTag) : String :=
  (tags.foldl (closestTagStep ref) (0, 0, "")).2.2

/-- Lines 183-195: the fixed build-label mapping; an unrecognized label
yields edition "unknown" and appends an `Error` to the run's error list. -/
def editionFor (host build : String) : String × List Error :=
  if build = "gitlab-ee" then ("enterprise", [])
  else if build = "gitlab-ce" then ("community", [])
  else ("unknown",
    [⟨host, "Could not determine Edition",
      "the following edition was returned in the hash results: " ++ build⟩])

/-- Lines 377-432: serve the cached tag list for the minor version, or
delegate to the external fetch (HTTP, JSON decoding and the created-at
fixup, abstracted as `fetchTags`) and store the result before returning. -/
def getTagsForMinorVersion (fetchTags : String → Except String (List GitlabTag))
    (cache : Cache) (minorVersion : String) :
    Except String (List GitlabTag × Cache) :=
  match alookup minorVersion cache with
  | some cachedTags => .ok (cachedTags, cache)
  | none =>
    match fetchTags minorVersion with
    | .error e => .error e
    | .ok gitlabTags => .ok (gitlabTags, (minorVersion, gitlabTags) :: cache)

/-- Lines 251-277, one iteration of the EOL/outdated loop: when the record's
cycle matches the resolved minor, parse its EOL date (`os.Exit(1)` on
failure: `none`), set the flags and append the warnings. The state is
`(result.EndOfLife, result.Outdated, warnings)`. -/
def eolCheckStep (env : Env) (version minor : String)
    (st : Bool × Bool × List String) (gv : GitlabVersion) :
    Option (Bool × Bool × List String) :=
  if gv.cycle = minor then
    match env.parseDate gv.eol with
    | none => none
    | some eolDate =>
      let st1 :=
        if eolDate < env.today then
          (true, true,
            st.2.2 ++ [minor ++ ".x is end-of-life (EOL), see https://endoflife.date/gitlab"])
        else st
      let st2 :=
        if version ≠ gv.latest then
          (st1.1, true,
            st1.2.2 ++ [version ++ " is outdated, latest " ++ gv.cycle ++ " version is " ++ gv.latest])
        else st1
      some st2
  else some st

/-- Lines 251-277: the whole EOL/outdated loop over `gitlabVersionsInfo`. -/
def eolCheck (env : Env) (version minor : String) :
    List GitlabVersion → (Bool × Bool × List String) →
    Option (Bool × Bool × List String)
  | [], st => some st
  | gv :: rest, st =>
    match eolCheckStep env version minor st gv with
    | none => none
    | some st2 => eolCheck env version minor rest st2

/-- Lines 197-245: the version branch of the hash-found path. Exactly one
candidate resolves directly (the loop of lines 199-201 assigns it); otherwise
the candidates are grouped by minor version: more than one distinct minor
appends a "Could not determine exact version" error and leaves the version
empty, exactly one minor fetches that minor's tags (line 228 `log.Fatal`
aborts the run when the fetch fails) and resolves the nearest preceding tag,
normalized. -/
def resolveVersion (env : Env) (cache : Cache) (host : String) (m : Manifest)
    (info : HashDictEntry) : Except String (String × List Error × Cache) :=
  if info.versions.length = 1 then
    .ok (info.versions.foldl (fun _ v => v) "", [], cache)
  else
    match computeMinors info.versions with
    | none => .error panicSliceMsg
    | some (ms, resultMinorVersion) =>
      if 1 < ms.dedup.length then
        .ok ("",
          [⟨host, "Could not determine exact version",
            "multiple minor versions were returned: [" ++ String.intercalate " " info.versions ++ "]"⟩],
          cache)
      else
        match getTagsForMinorVersion env.fetchTags cache resultMinorVersion with
        | .error e => .error e
        | .ok (tags, cache2) =>
          .ok (normalizeTagName (closestTagName m.lastModifiedDate tags), [], cache2)

/-- The `var result Result` of line 174 with only `Target` set (Go zero
values elsewhere), as line 310 appends it on the no-hash-match paths. -/
def blankResult (host : String) : Result :=
  ⟨host, "", "", false, false, []⟩

/-- Lines 150-310, one iteration of the target loop: surface a manifest
fetch failure or a non-GitLab manifest as a per-target `Error`; otherwise
look the hash up. On a hit, derive the edition, resolve the version, and run
the EOL/outdated check (the minor-version slice of lines 249-250 panics on a
version without a dot, in particular on the empty version). On a miss, the
24-hour freshness split of lines 284-307 applies. Line 310 appends the outer
`result` unconditionally, so the miss paths also emit `blankResult`. -/
def processTarget (env : Env) (cache : Cache) (t : TargetInput) :
    Except String (List Result × List Error × Cache) :=
  match t.manifest with
  | .error e => .ok ([], [⟨t.host, "Failed to fingerprint target", e⟩], cache)
  | .ok m =>
    if hasSub "gitlab".data m.outputPath.data then
      match alookup m.hash env.hashDictionary with
      | some info =>
        let ed := editionFor t.host info.build
        match resolveVersion env cache t.host m info with
        | .error e => .error e
        | .ok (version, ambErrors, cache2) =>
          match minorOfVersion version with
          | none => .error panicSliceMsg
          | some resultMinor =>
            match eolCheck env version resultMinor env.gitlabVersionsInfo (false, false, []) with
            | none => .error dateExitMsg
            | some st =>
              .ok ([⟨t.host, version, ed.1, st.1, st.2.1, st.2.2⟩],
                ed.2 ++ ambErrors, cache2)
      | none =>
        if env.now - 24 * 3600 < m.lastModifiedDate then
          .ok ([⟨t.host, "unknown", "unknown", false, false, [tooNewWarning, hashesURL]⟩,
                blankResult t.host], [], cache)
        else
          .ok ([blankResult t.host],
            [⟨t.host, "Unable to guess version of target",
              "A manifest file was found, but the hash in it (" ++ m.hash ++
                ") was not found in '" ++ hashesURL ++
                "'. The Last-Modified date of the manifest file (" ++
                env.timeStr m.lastModifiedDate ++
                ") is not shorter than 24 hours. The most likely culprit for this error is that the Hashes file is no longer being updated. See: https://github.com/righel/gitlab-version-nse/"⟩],
            cache)
    else
      .ok ([], [⟨t.host, "Target is not a GitLab installation",
        "the outputPath in " ++ t.url ++ " has no mention of 'gitlab' in it"⟩], cache)

/-- The target loop of `main` (lines 149-311): fold `processTarget` over the
targets, threading the tag cache and accumulating `FinalOutput`; a
run-aborting exit inside one target stops the whole run with nothing
printed. -/
def runTargets (env : Env) : List TargetInput → Cache → FinalOutput →
    Except String FinalOutput
  | [], _, acc => .ok acc
  | t :: rest, cache, acc =>
    match processTarget env cache t with
    | .error e => .error e
    | .ok (rs, es, cache2) =>
      runTargets env rest cache2 ⟨acc.results ++ rs, acc.errors ++ es⟩

/-- A run's sequence of `getTagsForMinorVersion` calls, threading the shared
`gitlabTagsCache`; the returned list logs the minor versions for which the
external fetch was actually invoked (exactly the cache misses). -/
def runRequests (fetchTags : String → Except String (List GitlabTag)) :
    List String → Cache → List String → Except String (Cache × List String)
  | [], cache, log => .ok (cache, log)
  | k :: ks, cache, log =>
    match getTagsForMinorVersion fetchTags cache k with
    | .error e => .error e
    | .ok (_, cache2) =>
      runRequests fetchTags ks cache2
        (log ++ if (alookup k cache).isSome then [] else [k])

/-- Stated from the words of spec §4.3, for comparison with the code: among
the tags of the list, the first one attaining the minimal
`reference − createdAt`. -/
def pickFirstMin (ref : Int) : List GitlabTag → Option GitlabTag
  | [] => none
  | t :: ts =>
    match pickFirstMin ref ts with
    | none => some t
    | some u =>
      if ref - t.createdAtDate ≤ ref - u.createdAtDate then some t else some u

/-- Stated from the words of spec §4.3: filter to the tags strictly before
the reference, then take the first minimizer; no survivor means no tag. -/
def nearestTagSpec (ref : Int) (tags : List GitlabTag) : Option GitlabTag :=
  pickFirstMin ref (tags.filter (fun t => t.createdAtDate < ref))

/-- The name `nearestTagSpec` selects, the empty string when it selects no
tag (matching the code's `closestDateTag` zero value). -/
def nearestTagNameSpec (ref : Int) (tags : List GitlabTag) : String :=
  match nearestTagSpec ref tags with
  | none => ""
  | some t => t.name

/-- Stated from the words of spec §4.3's output sentence: strip one leading
`v` and one trailing `-ee` from the tag name. -/
def normalizeTagNameSpec (s : String) : String :=
  let l1 := match s.data with
    | 'v' :: rest => rest
    | l => l
  let l2 := match l1.reverse with
    | 'e' :: 'e' :: '-' :: rest => rest.reverse
    | _ => l1
  String.mk l2

/-! ### Helper lemmas -/

theorem alookup_cons {α : Type} (k k2 : String) (v : α) (rest : List (String × α)) :
    alookup k ((k2, v) :: rest) = if k = k2 then some v else alookup k rest := rfl

theorem runTargets_cons (env : Env) (t : TargetInput) (rest : List TargetInput)
    (cache : Cache) (acc : FinalOutput) :
    runTargets env (t :: rest) cache acc =
      match processTarget env cache t with
      | .error e => .error e
      | .ok (rs, es, cache2) =>
        runTargets env rest cache2 ⟨acc.results ++ rs, acc.errors ++ es⟩ := rfl

theorem removeEE_sublist : ∀ l : List Char, List.Sublist (removeEE l) l := by
  intro l
  induction l using removeEE.induct with
  | case1 rest ih =>
    rw [removeEE.eq_1]
    exact ((ih.cons _).cons _).cons _
  | case2 c rest h ih =>
    rw [removeEE.eq_2 c rest h]
    exact ih.cons₂ _
  | case3 => simp [removeEE]

theorem normalizeTagName_no_v :
    ∀ s : String, ((normalizeTagName s).data).count 'v' = 0 := by
  intro s
  have h1 : (normalizeTagName s).data = removeEE (s.data.filter (fun c => c ≠ 'v')) := rfl
  rw [h1]
  have h2 := (removeEE_sublist (s.data.filter (fun c => c ≠ 'v'))).count_le 'v'
  have h3 : (s.data.filter (fun c => c ≠ 'v')).count 'v' = 0 := by
    rw [List.count_eq_zero]
    intro hmem
    rcases List.mem_filter.mp hmem with ⟨_, hv⟩
    simp at hv
  omega

/-- The loop state of `closestTagStep` as an optional currently-selected tag;
valid as long as no selected tag is dated at the zero time (the code reads
`closestDate.IsZero()` as "nothing selected yet"). -/
def stateOfAcc (ref : Int) : Option GitlabTag → Int × Int × String
  | none => (0, 0, "")
  | some u => (u.createdAtDate, ref - u.createdAtDate, u.name)

/-- `closestTagStep`, lifted to the optional-selection view of the state. -/
def optStep (ref : Int) (acc : Option GitlabTag) (t : GitlabTag) : Option GitlabTag :=
  if t.createdAtDate < ref then
    match acc with
    | none => some t
    | some u => if ref - t.createdAtDate < ref - u.createdAtDate then some t else acc
  else acc

/-- Keep the nearer of two optional selections, the left one on ties. -/
def mergeNear (ref : Int) : Option GitlabTag → Option GitlabTag → Option GitlabTag
  | none, b => b
  | some a, none => some a
  | some a, some b =>
    if ref - b.createdAtDate < ref - a.createdAtDate then some b else some a

theorem closestTagStep_eq_optStep (ref : Int) (acc : Option GitlabTag)
    (t : GitlabTag) (hacc : ∀ u, acc = some u → u.createdAtDate ≠ 0) :
    closestTagStep ref (stateOfAcc ref acc) t = stateOfAcc ref (optStep ref acc t) := by
  cases acc with
  | none =>
    simp [closestTagStep, optStep, stateOfAcc]
    split <;> simp [stateOfAcc]
  | some u =>
    have hu : u.createdAtDate ≠ 0 := hacc u rfl
    simp [closestTagStep, optStep, stateOfAcc]
    split
    · simp [hu, stateOfAcc]
      split <;> simp [stateOfAcc]
    · rfl

theorem foldl_step_eq_opt (ref : Int) :
    ∀ (tags : List GitlabTag) (acc : Option GitlabTag),
      (∀ tg ∈ tags, tg.createdAtDate ≠ 0) →
      (∀ u, acc = some u → u.createdAtDate ≠ 0) →
      tags.foldl (closestTagStep ref) (stateOfAcc ref acc) =
        stateOfAcc ref (tags.foldl (optStep ref) acc)
  | [], acc, _, _ => rfl
  | t :: ts, acc, htags, hacc => by
    have ht : t.createdAtDate ≠ 0 := htags t (by simp)
    have hstep := closestTagStep_eq_optStep ref acc t hacc
    have hacc2 : ∀ u, optStep ref acc t = some u → u.createdAtDate ≠ 0 := by
      intro u hu
      cases acc with
      | none =>
        by_cases h : t.createdAtDate < ref
        · simp [optStep, h] at hu
          subst hu; exact ht
        · simp [optStep, h] at hu
      | some w =>
        by_cases h : t.createdAtDate < ref
        · by_cases h2 : ref - t.createdAtDate < ref - w.createdAtDate
          · simp [optStep, h, h2] at hu
            subst hu; exact ht
          · simp [optStep, h, h2] at hu
            subst hu; exact hacc w rfl
        · simp [optStep, h] at hu
          subst hu; exact hacc w rfl
    calc (t :: ts).foldl (closestTagStep ref) (stateOfAcc ref acc)
        = ts.foldl (closestTagStep ref) (closestTagStep ref (stateOfAcc ref acc) t) := rfl
      _ = ts.foldl (closestTagStep ref) (stateOfAcc ref (optStep ref acc t)) := by rw [hstep]
      _ = stateOfAcc ref (ts.foldl (optStep ref) (optStep ref acc t)) :=
          foldl_step_eq_opt ref ts (optStep ref acc t)
            (fun tg htg => htags tg (by simp [htg])) hacc2
      _ = stateOfAcc ref ((t :: ts).foldl (optStep ref) acc) := rfl

theorem mergeNear_assoc (ref : Int) (a b c : Option GitlabTag) :
    mergeNear ref (mergeNear ref a b) c = mergeNear ref a (mergeNear ref b c) := by
  cases a with
  | none => rfl
  | some x =>
    cases b with
    | none => rfl
    | some y =>
      cases c with
      | none =>
        by_cases h1 : ref - y.createdAtDate < ref - x.createdAtDate <;>
          simp [mergeNear, h1]
      | some z =>
        by_cases h1 : ref - y.createdAtDate < ref - x.createdAtDate
        · by_cases h2 : ref - z.createdAtDate < ref - y.createdAtDate
          · simp [mergeNear, h1, h2,
              show ref - z.createdAtDate < ref - x.createdAtDate by omega]
          · simp [mergeNear, h1, h2]
        · by_cases h2 : ref - z.createdAtDate < ref - y.createdAtDate
          · simp [mergeNear, h1, h2]
          · simp [mergeNear, h1, h2,
              show ¬ ref - z.createdAtDate < ref - x.createdAtDate by omega]

theorem optStep_eq_merge (ref : Int) (acc : Option GitlabTag) (t : GitlabTag)
    (ht : t.createdAtDate < ref) :
    optStep ref acc t = mergeNear ref acc (some t) := by
  cases acc <;> simp [optStep, mergeNear, ht]

theorem pickFirstMin_cons_merge (ref : Int) (t : GitlabTag) (l : List GitlabTag) :
    pickFirstMin ref (t :: l) = mergeNear ref (some t) (pickFirstMin ref l) := by
  cases h : pickFirstMin ref l with
  | none => simp [pickFirstMin, h, mergeNear]
  | some u =>
    simp [pickFirstMin, h, mergeNear]
    split_ifs <;> first | rfl | omega

theorem foldl_opt_eq_pick (ref : Int) :
    ∀ (tags : List GitlabTag) (acc : Option GitlabTag),
      tags.foldl (optStep ref) acc =
        mergeNear ref acc (pickFirstMin ref (tags.filter (fun t => t.createdAtDate < ref)))
  | [], acc => by cases acc <;> simp [pickFirstMin, mergeNear]
  | t :: ts, acc => by
    by_cases ht : t.createdAtDate < ref
    · have h1 : (t :: ts).foldl (optStep ref) acc
          = ts.foldl (optStep ref) (mergeNear ref acc (some t)) := by
        simp [List.foldl, optStep_eq_merge ref acc t ht]
      rw [h1, foldl_opt_eq_pick ref ts (mergeNear ref acc (some t))]
      have hfil : (t :: ts).filter (fun t => t.createdAtDate < ref)
          = t :: ts.filter (fun t => t.createdAtDate < ref) := by
        simp [List.filter, ht]
      rw [hfil, pickFirstMin_cons_merge, mergeNear_assoc]
    · have h1 : (t :: ts).foldl (optStep ref) acc = ts.foldl (optStep ref) acc := by
        simp [List.foldl, optStep, ht]
      have hfil : (t :: ts).filter (fun t => t.createdAtDate < ref)
          = ts.filter (fun t => t.createdAtDate < ref) := by
        simp [List.filter, ht]
      rw [h1, hfil, foldl_opt_eq_pick ref ts acc]

theorem foldl_closestTagStep_no_qual (ref : Int) :
    ∀ (tags : List GitlabTag) (s : Int × Int × String),
      (∀ tg ∈ tags, ¬ tg.createdAtDate < ref) →
      tags.foldl (closestTagStep ref) s = s
  | [], s, _ => rfl
  | tg :: rest, s, h => by
    have h1 : closestTagStep ref s tg = s := by
      unfold closestTagStep
      rw [if_neg (h tg (by simp))]
    calc (tg :: rest).foldl (closestTagStep ref) s
        = rest.foldl (closestTagStep ref) (closestTagStep ref s tg) := rfl
      _ = rest.foldl (closestTagStep ref) s := by rw [h1]
      _ = s := foldl_closestTagStep_no_qual ref rest s (fun x hx => h x (by simp [hx]))

theorem eolCheckStep_inv (env : Env) (version minor : String)
    (st st2 : Bool × Bool × List String) (gv : GitlabVersion)
    (h : eolCheckStep env version minor st gv = some st2)
    (hst : st.1 = true → st.2.1 = true) : st2.1 = true → st2.2.1 = true := by
  unfold eolCheckStep at h
  split at h
  · cases hp : env.parseDate gv.eol with
    | none => rw [hp] at h; cases h
    | some eolDate =>
      rw [hp] at h
      simp only at h
      split at h <;> split at h <;>
        (cases h; first | simp | simpa using hst)
  · cases h; exact hst

theorem eolCheck_inv (env : Env) (version minor : String) :
    ∀ (gvs : List GitlabVersion) (st st2 : Bool × Bool × List String),
      eolCheck env version minor gvs st = some st2 →
      (st.1 = true → st.2.1 = true) → st2.1 = true → st2.2.1 = true
  | [], st, st2, h, hst => by cases h; exact hst
  | gv :: rest, st, st2, h, hst => by
    unfold eolCheck at h
    cases hs : eolCheckStep env version minor st gv with
    | none => rw [hs] at h; cases h
    | some st1 =>
      rw [hs] at h
      exact eolCheck_inv env version minor rest st1 st2 h
        (eolCheckStep_inv env version minor st st1 gv hs hst)

theorem processTarget_results_inv (env : Env) (cache : Cache) (t : TargetInput)
    (rs : List Result) (es : List Error) (c2 : Cache)
    (h : processTarget env cache t = .ok (rs, es, c2)) :
    ∀ r ∈ rs, r.endOfLife = true → r.outdated = true := by
  unfold processTarget at h
  split at h
  · cases h; simp
  · split at h
    · split at h
      · split at h
        · cases h
        · split at h
          · cases h
          · split at h
            · cases h
            · cases h
              intro r hr he
              simp only [List.mem_singleton] at hr
              subst hr
              exact eolCheck_inv env _ _ env.gitlabVersionsInfo (false, false, []) _
                (by assumption) (by simp) he
      · split at h
        · cases h
          intro r hr
          simp only [List.mem_cons, List.not_mem_nil, or_false] at hr
          rcases hr with hr | hr <;> (subst hr; simp [blankResult])
        · cases h
          intro r hr
          simp only [List.mem_singleton] at hr
          subst hr; simp [blankResult]
    · cases h; simp

theorem runTargets_results_inv (env : Env) :
    ∀ (targets : List TargetInput) (cache : Cache) (acc : FinalOutput)
      (out : FinalOutput),
      runTargets env targets cache acc = .ok out →
      (∀ r ∈ acc.results, r.endOfLife = true → r.outdated = true) →
      ∀ r ∈ out.results, r.endOfLife = true → r.outdated = true
  | [], cache, acc, out, h, hacc => by cases h; exact hacc
  | t :: rest, cache, acc, out, h, hacc => by
    unfold runTargets at h
    cases hp : processTarget env cache t with
    | error e => rw [hp] at h; cases h
    | ok v =>
      rw [hp] at h
      obtain ⟨rs, es, cache2⟩ := v
      refine runTargets_results_inv env rest cache2 _ out h ?_
      intro r hr
      simp only [List.mem_append] at hr
      rcases hr with hr | hr
      · exact hacc r hr
      · exact processTarget_results_inv env cache t rs es cache2 hp r hr

theorem runRequests_log_count (fetch : String → Except String (List GitlabTag)) :
    ∀ (keys : List String) (cache : Cache) (log : List String)
      (c2 : Cache) (log2 : List String),
      runRequests fetch keys cache log = .ok (c2, log2) →
      ∀ k, log2.count k =
        log.count k +
          (if (alookup k cache).isSome then 0 else if k ∈ keys then 1 else 0)
  | [], cache, log, c2, log2, h, k => by
    cases h
    simp
  | k0 :: ks, cache, log, c2, log2, h, k => by
    unfold runRequests at h
    cases hc : alookup k0 cache with
    | some tags =>
      rw [show getTagsForMinorVersion fetch cache k0 = .ok (tags, cache) by
        unfold getTagsForMinorVersion; rw [hc]] at h
      simp only [hc, Option.isSome_some, if_true, List.append_nil] at h
      have ih := runRequests_log_count fetch ks cache log c2 log2 h k
      by_cases hk : k = k0
      · subst hk
        simp [hc] at ih ⊢
        exact ih
      · simp only [List.mem_cons, hk, false_or]
        exact ih
    | none =>
      rw [show getTagsForMinorVersion fetch cache k0 =
          (match fetch k0 with
           | .error e => .error e
           | .ok gitlabTags => .ok (gitlabTags, (k0, gitlabTags) :: cache)) by
        unfold getTagsForMinorVersion; rw [hc]] at h
      cases hf : fetch k0 with
      | error e => rw [hf] at h; cases h
      | ok tags =>
        rw [hf] at h
        simp only [hc, Option.isSome_none, if_false] at h
        have ih := runRequests_log_count fetch ks ((k0, tags) :: cache)
          (log ++ [k0]) c2 log2 h k
        by_cases hk : k = k0
        · subst hk
          simp [alookup_cons, List.count_append, hc] at ih
          simp [hc]
          omega
        · have h1 : List.count k [k0] = 0 := by simp [hk]
          simp only [alookup_cons, hk, if_false, List.count_append, h1] at ih
          simp only [List.mem_cons, hk, false_or]
          by_cases hck : (alookup k cache).isSome <;> simp [hck] at ih ⊢ <;> omega

theorem runRequests_cache_count (fetch : String → Except String (List GitlabTag)) :
    ∀ (keys : List String) (cache : Cache) (log : List String)
      (c2 : Cache) (log2 : List String),
      runRequests fetch keys cache log = .ok (c2, log2) →
      ∀ k, (c2.map Prod.fst).count k =
        (cache.map Prod.fst).count k +
          (if (alookup k cache).isSome then 0 else if k ∈ keys then 1 else 0)
  | [], cache, log, c2, log2, h, k => by
    cases h
    simp
  | k0 :: ks, cache, log, c2, log2, h, k => by
    unfold runRequests at h
    cases hc : alookup k0 cache with
    | some tags =>
      rw [show getTagsForMinorVersion fetch cache k0 = .ok (tags, cache) by
        unfold getTagsForMinorVersion; rw [hc]] at h
      simp only [hc, Option.isSome_some, if_true, List.append_nil] at h
      have ih := runRequests_cache_count fetch ks cache log c2 log2 h k
      by_cases hk : k = k0
      · subst hk
        simp [hc] at ih
        simp [hc]
        omega
      · simp only [List.mem_cons, hk, false_or]
        exact ih
    | none =>
      rw [show getTagsForMinorVersion fetch cache k0 =
          (match fetch k0 with
           | .error e => .error e
           | .ok gitlabTags => .ok (gitlabTags, (k0, gitlabTags) :: cache)) by
        unfold getTagsForMinorVersion; rw [hc]] at h
      cases hf : fetch k0 with
      | error e => rw [hf] at h; cases h
      | ok tags =>
        rw [hf] at h
        simp only [hc, Option.isSome_none, if_false] at h
        have ih := runRequests_cache_count fetch ks ((k0, tags) :: cache)
          (log ++ [k0]) c2 log2 h k
        by_cases hk : k = k0
        · subst hk
          simp [alookup_cons, hc, List.count_cons] at ih
          simp [hc]
          omega
        · have h1 : (((k0, tags) :: cache).map Prod.fst).count k
              = (cache.map Prod.fst).count k := by
            simp [List.count_cons, hk]
          simp only [alookup_cons, hk, if_false, h1] at ih
          simp only [List.mem_cons, hk, false_or]
          by_cases hck : (alookup k cache).isSome <;> simp [hck] at ih ⊢ <;> omega

theorem getTags_hit (fetch : String → Except String (List GitlabTag))
    (k : String) (tags : List GitlabTag) (c : Cache)
    (h : alookup k c = some tags) :
    getTagsForMinorVersion fetch c k = .ok (tags, c) := by
  unfold getTagsForMinorVersion
  rw [h]

/-! ### Claim C1 -/

def env1w : Env where
  hashDictionary := [("h1", ⟨"gitlab-ee", ["16.8.5", "16.8.7"]⟩)]
  gitlabVersionsInfo := []
  fetchTags := fun _ => .error "tag fetch failed"
  now := 1000000
  today := 200
  parseDate := fun _ => none
  timeStr := fun _ => "LM"

def t1wErr : TargetInput :=
  ⟨"host1", "https://host1/assets/webpack/manifest.json", .error "connection refused"⟩

def t1wFetch : TargetInput :=
  ⟨"host1", "https://host1/assets/webpack/manifest.json",
    .ok ⟨"h1", 100, "gitlab-foo"⟩⟩

def t1wOk : TargetInput :=
  ⟨"host2", "https://host2/assets/webpack/manifest.json", .error "also down"⟩

/-- C1, counterexample: in a two-target run whose first target resolves to a
single minor version but whose tag-list fetch fails, the whole run aborts
with that fetch error (line 228 `log.Fatal`): no per-target `Error` is
recorded and the second target is never processed, contrary to the claim
that such a failure is surfaced for that target only and processing
continues. -/
theorem tagFetch_aborts_run :
    runTargets env1w [t1wFetch, t1wOk] [] ⟨[], []⟩ =
      Except.error "tag fetch failed" := rfl

/-- C1, amended: a manifest-fetch failure for one target is recorded as an
`Error` for that target only and the run continues with the remaining
targets; a failure of a target's tag-list fetch, however, aborts the entire
run via `log.Fatal` with no per-target error recorded. -/
theorem perTarget_error_isolation (env : Env) (t : TargetInput)
    (rest : List TargetInput) (cache : Cache) (acc : FinalOutput) :
    (∀ e, t.manifest = .error e →
      runTargets env (t :: rest) cache acc =
        runTargets env rest cache
          ⟨acc.results, acc.errors ++ [⟨t.host, "Failed to fingerprint target", e⟩]⟩)
    ∧ (∀ m info ms lastm ferr,
        t.manifest = .ok m →
        hasSub "gitlab".data m.outputPath.data = true →
        alookup m.hash env.hashDictionary = some info →
        info.versions.length ≠ 1 →
        computeMinors info.versions = some (ms, lastm) →
        ¬ 1 < ms.dedup.length →
        alookup lastm cache = none →
        env.fetchTags lastm = .error ferr →
        runTargets env (t :: rest) cache acc = .error ferr) := by
  constructor
  · intro e he
    have hp : processTarget env cache t
        = .ok ([], [⟨t.host, "Failed to fingerprint target", e⟩], cache) := by
      unfold processTarget
      rw [he]
    rw [runTargets_cons, hp]
    simp
  · intro m info ms lastm ferr hm hsub hinfo hlen hmin hded hcache hfetch
    have hgt : getTagsForMinorVersion env.fetchTags cache lastm = .error ferr := by
      unfold getTagsForMinorVersion
      rw [hcache, hfetch]
    have hres : resolveVersion env cache t.host m info = .error ferr := by
      simp only [resolveVersion, if_neg hlen, hmin, if_neg hded, hgt]
    have hp : processTarget env cache t = .error ferr := by
      simp only [processTarget, hm, hsub, if_true, hinfo, hres]
    rw [runTargets_cons, hp]

/-- C1, witness: the amended theorem applied at concrete inputs: a
manifest-error target is continued past with its error recorded, and a
tag-fetch failure aborts the run. -/
theorem perTarget_error_isolation_witness :
    runTargets env1w [t1wErr, t1wOk] [] ⟨[], []⟩ =
      runTargets env1w [t1wOk] []
        ⟨[], [⟨"host1", "Failed to fingerprint target", "connection refused"⟩]⟩
    ∧ runTargets env1w [t1wFetch, t1wOk] [] ⟨[], []⟩ = .error "tag fetch failed" :=
  ⟨(perTarget_error_isolation env1w t1wErr [t1wOk] [] ⟨[], []⟩).1
      "connection refused" rfl,
   (perTarget_error_isolation env1w t1wFetch [t1wOk] [] ⟨[], []⟩).2
      ⟨"h1", 100, "gitlab-foo"⟩ ⟨"gitlab-ee", ["16.8.5", "16.8.7"]⟩
      ["16.8", "16.8"] "16.8" "tag fetch failed"
      rfl rfl rfl (by decide) (by decide) (by decide) rfl rfl⟩

/-! ### Claim C2 -/

def env2c : Env where
  hashDictionary := [("h2", ⟨"gitlab-ee", ["16.8.7", "16.9.2"]⟩)]
  gitlabVersionsInfo := []
  fetchTags := fun _ => .ok []
  now := 1000000
  today := 200
  parseDate := fun _ => none
  timeStr := fun _ => "LM"

def t2c : TargetInput := ⟨"host2c", "https://host2c/assets/webpack/manifest.json",
  .ok ⟨"h2", 100, "gitlab-foo"⟩⟩

/-- C2: for a hash-dictionary entry whose candidates span two minor versions
(16.8 and 16.9), the code appends the "Could not determine exact version"
error and leaves the version empty, but then panics slicing the minor cycle
of the empty version string (lines 249-250), aborting the whole run instead
of producing a per-target outcome. -/
theorem multiMinor_ambiguity_panics :
    processTarget env2c [] t2c = Except.error panicSliceMsg := rfl

/-! ### Claim C3 -/

def env3c : Env where
  hashDictionary := []
  gitlabVersionsInfo := []
  fetchTags := fun _ => .ok []
  now := 1000000
  today := 200
  parseDate := fun _ => none
  timeStr := fun _ => "2024-05-20 10:00:00 +0000 UTC"

def t3c : TargetInput := ⟨"host3", "https://host3/assets/webpack/manifest.json",
  .ok ⟨"deadbeef", 1000000 - 48 * 3600, "gitlab-cloud-ee"⟩⟩

/-- C3: a target whose hash is absent from the dictionary and whose
Last-Modified timestamp is 48 hours old gets the stale-dictionary `Error`
(naming the hash and the Last-Modified timestamp), but line 310 also appends
the blank outer `result` to the results list, so a `Result` is emitted for
the target as well, contrary to the claim. -/
theorem staleDict_error_and_spurious_result :
    processTarget env3c [] t3c =
      Except.ok ([blankResult "host3"],
        [⟨"host3", "Unable to guess version of target",
          "A manifest file was found, but the hash in it (deadbeef) was not found in 'https://raw.githubusercontent.com/righel/gitlab-version-nse/main/gitlab_hashes.json'. The Last-Modified date of the manifest file (2024-05-20 10:00:00 +0000 UTC) is not shorter than 24 hours. The most likely culprit for this error is that the Hashes file is no longer being updated. See: https://github.com/righel/gitlab-version-nse/"⟩],
        []) := rfl

/-! ### Claim C4 -/

def env4c : Env where
  hashDictionary := []
  gitlabVersionsInfo := []
  fetchTags := fun _ => .ok []
  now := 1000000
  today := 200
  parseDate := fun _ => none
  timeStr := fun _ => "LM"

def t4c : TargetInput := ⟨"host4", "https://host4/assets/webpack/manifest.json",
  .ok ⟨"deadbeef", 1000000 - 3600, "gitlab-cloud-ee"⟩⟩

/-- C4: a target whose hash is absent from the dictionary and whose
Last-Modified timestamp is one hour old gets the degraded result with
version and edition "unknown" and both flags false, but its warnings list
holds two strings (the message template with its `%s` verb unformatted, and
the hashes URL passed as a separate `append` argument), and line 310 appends
a second, blank result for the same target — not the single result with a
single warning the claim states. -/
theorem tooNew_double_warning_and_result :
    processTarget env4c [] t4c =
      Except.ok ([⟨"host4", "unknown", "unknown", false, false,
          [tooNewWarning, hashesURL]⟩, blankResult "host4"],
        [], []) := rfl

/-! ### Claim C5 -/

/-- C5, counterexample: two tags both created at the zero time tie at
distance 2 before reference 2; the code selects the second ("b": the
`closestDate.IsZero()` guard of line 235 treats the zero-dated selection as
"nothing selected yet" and overwrites it), while the spec's
first-encountered tie-break selects the first ("a"). -/
theorem nearestTag_zeroTime_tie :
    closestTagName 2 [⟨"a", 0⟩, ⟨"b", 0⟩] = "b"
    ∧ nearestTagNameSpec 2 [⟨"a", 0⟩, ⟨"b", 0⟩] = "a" := by
  constructor <;> rfl

/-- C5, amended: provided no tag's creation date is the zero time value, the
resolver considers only tags created strictly before the reference, selects
the one minimizing `reference − createdAt` with exact ties resolved in favor
of the first-encountered tag, and selects nothing when the reference
precedes every tag (a zero-dated selected tag is instead unconditionally
replaced by the next qualifying tag). -/
theorem nearestTag_refines_spec (ref : Int) (tags : List GitlabTag)
    (h : ∀ tg ∈ tags, tg.createdAtDate ≠ 0) :
    closestTagName ref tags = nearestTagNameSpec ref tags := by
  have h0 : (((0 : Int), (0 : Int), "") : Int × Int × String) = stateOfAcc ref none := rfl
  unfold closestTagName
  rw [h0, foldl_step_eq_opt ref tags none h (by intro u hu; cases hu)]
  rw [foldl_opt_eq_pick ref tags none]
  unfold nearestTagNameSpec nearestTagSpec
  cases hp : pickFirstMin ref (tags.filter (fun t => t.createdAtDate < ref)) <;>
    simp [mergeNear, stateOfAcc, hp]

/-- C5, witness: the spec's own example — tags at days 1, 5 and 10 with
reference day 7 (in seconds here; the scale is irrelevant) — evaluated
through the amended theorem: the code and the spec-side selector agree. -/
theorem nearestTag_refines_spec_witness :
    closestTagName 7 [⟨"A", 1⟩, ⟨"B", 5⟩, ⟨"C", 10⟩] =
      nearestTagNameSpec 7 [⟨"A", 1⟩, ⟨"B", 5⟩, ⟨"C", 10⟩] :=
  nearestTag_refines_spec 7 [⟨"A", 1⟩, ⟨"B", 5⟩, ⟨"C", 10⟩] (by decide)

/-! ### Claim C6 -/

def env6c : Env where
  hashDictionary := [("h6c", ⟨"gitlab-ee", ["16.9.1", "16.9.3"]⟩)]
  gitlabVersionsInfo := []
  fetchTags := fun m => if m = "16.9" then .ok [⟨"v16.9.1-ee", 900⟩] else .ok []
  now := 1000000
  today := 200
  parseDate := fun _ => none
  timeStr := fun _ => "LM"

def t6c : TargetInput := ⟨"host6c", "https://host6c/assets/webpack/manifest.json",
  .ok ⟨"h6c", 50, "gitlab-foo"⟩⟩

/-- C6, counterexample: candidates share minor version 16.9, the only 16.9
tag is created after the target's Last-Modified timestamp, and resolution
does not complete for the target: the empty version string reaches the
minor-cycle slice of lines 249-250 and the process panics, contrary to the
claim's "without crashing". -/
theorem noQualifyingTag_crash :
    processTarget env6c [] t6c = Except.error panicSliceMsg := rfl

/-- C6, amended: when the candidate versions share one minor version but no
tag of that minor version is created strictly before the target's
Last-Modified timestamp, the resolved version remains the empty string and
is carried into the EOL/outdated evaluation, whose minor-cycle slice
(lines 249-250) panics on it: the run crashes and resolution for that
target does not complete. -/
theorem emptyVersion_panics (env : Env) (cache : Cache) (t : TargetInput)
    (m : Manifest) (info : HashDictEntry) (ms : List String) (lastm : String)
    (tags : List GitlabTag) (cache2 : Cache)
    (hm : t.manifest = .ok m)
    (hsub : hasSub "gitlab".data m.outputPath.data = true)
    (hinfo : alookup m.hash env.hashDictionary = some info)
    (hlen : info.versions.length ≠ 1)
    (hmin : computeMinors info.versions = some (ms, lastm))
    (hded : ¬ 1 < ms.dedup.length)
    (hgt : getTagsForMinorVersion env.fetchTags cache lastm = .ok (tags, cache2))
    (hqual : ∀ tg ∈ tags, ¬ tg.createdAtDate < m.lastModifiedDate) :
    processTarget env cache t = .error panicSliceMsg := by
  have hclosest : closestTagName m.lastModifiedDate tags = "" := by
    unfold closestTagName
    rw [foldl_closestTagStep_no_qual m.lastModifiedDate tags (0, 0, "") hqual]
  have hres : resolveVersion env cache t.host m info = .ok ("", [], cache2) := by
    simp only [resolveVersion, if_neg hlen, hmin, if_neg hded, hgt, hclosest]
    rfl
  simp only [processTarget, hm, hsub, if_true, hinfo, hres]
  rfl

/-- C6, witness: the amended theorem applied at a concrete input (candidates
16.8.5 and 16.8.7, one 16.8 tag created after the manifest's timestamp). -/
theorem emptyVersion_panics_witness :
    processTarget
      ⟨[("h6", ⟨"gitlab-ce", ["16.8.5", "16.8.7"]⟩)], [],
        fun m => if m = "16.8" then .ok [⟨"v16.8.5-ee", 500⟩] else .ok [],
        1000000, 200, fun _ => none, fun _ => "LM"⟩
      [] ⟨"host6", "https://host6/assets/webpack/manifest.json",
        .ok ⟨"h6", 100, "gitlab-foo"⟩⟩ = .error panicSliceMsg :=
  emptyVersion_panics _ [] _ ⟨"h6", 100, "gitlab-foo"⟩
    ⟨"gitlab-ce", ["16.8.5", "16.8.7"]⟩ ["16.8", "16.8"] "16.8"
    [⟨"v16.8.5-ee", 500⟩] [("16.8", [⟨"v16.8.5-ee", 500⟩])]
    rfl rfl rfl (by decide) (by decide) (by decide) rfl (by decide)

/-! ### Claim C7 -/

/-- C7, counterexample: on the tag name "vv1.2.3" the code's normalization
(line 243, `strings.Replace` with count -1) deletes both `v`s and yields
"1.2.3", while stripping one leading `v` and a trailing `-ee` as the claim
states would yield "v1.2.3". -/
theorem normalizeTag_not_anchored :
    normalizeTagName "vv1.2.3" = "1.2.3"
    ∧ normalizeTagNameSpec "vv1.2.3" = "v1.2.3" := by
  constructor <;> rfl

/-- C7, amended: the output version string is produced by deleting every
occurrence of `v` and then every occurrence of the substring `-ee` anywhere
in the tag name — hence the output never contains the character `v` — and in
particular "v16.8.7-ee" normalizes to "16.8.7". -/
theorem normalizeTag_removes_all :
    normalizeTagName "v16.8.7-ee" = "16.8.7"
    ∧ ∀ s : String, ((normalizeTagName s).data).count 'v' = 0 :=
  ⟨rfl, normalizeTagName_no_v⟩

/-! ### Claim C8 -/

/-- C8: in every run that completes, every emitted `Result` with
`endOfLife = true` also has `outdated = true`: the only assignment of
`EndOfLife` (line 268) sets `Outdated` alongside it (line 269), `Outdated`
is never reset, and both no-match results carry both flags false. -/
theorem run_endOfLife_implies_outdated (env : Env) (targets : List TargetInput)
    (out : FinalOutput) (h : runTargets env targets [] ⟨[], []⟩ = .ok out) :
    ∀ r ∈ out.results, r.endOfLife = true → r.outdated = true :=
  runTargets_results_inv env targets [] ⟨[], []⟩ out h (by simp)

def env8 : Env where
  hashDictionary := [("h8", ⟨"gitlab-ce", ["16.8.7"]⟩)]
  gitlabVersionsInfo := [⟨"16.8", "2024-05-22", "16.8.7", "", ""⟩]
  fetchTags := fun _ => .ok []
  now := 1000000
  today := 200
  parseDate := fun s => if s = "2024-05-22" then some 100 else none
  timeStr := fun _ => "LM"

def t8 : TargetInput := ⟨"host8", "https://host8/assets/webpack/manifest.json",
  .ok ⟨"h8", 100, "gitlab-foo"⟩⟩

def result8 : Result :=
  ⟨"host8", "16.8.7", "community", true, true,
    ["16.8.x is end-of-life (EOL), see https://endoflife.date/gitlab"]⟩

/-- C8, witness: a concrete run whose one result is end-of-life; the theorem
yields its outdated flag. -/
theorem run_endOfLife_witness : result8.outdated = true :=
  run_endOfLife_implies_outdated env8 [t8] ⟨[result8], []⟩ rfl result8 (by simp) rfl

/-! ### Claim C9 -/

/-- C9: over any sequence of tag-cache requests of one run, started on the
empty cache: every minor-version key is fetched exactly once if requested at
all and never otherwise (so at most once), the cache ends with at most one
entry per key (write-once), and a cache hit returns the stored list with the
cache unchanged. -/
theorem tagCache_fetch_once (fetch : String → Except String (List GitlabTag))
    (keys : List String) (c2 : Cache) (log : List String)
    (h : runRequests fetch keys [] [] = .ok (c2, log)) :
    (∀ k, log.count k = if k ∈ keys then 1 else 0)
    ∧ (∀ k, (c2.map Prod.fst).count k = if k ∈ keys then 1 else 0)
    ∧ (∀ k tags c, alookup k c = some tags →
        getTagsForMinorVersion fetch c k = .ok (tags, c)) := by
  refine ⟨fun k => ?_, fun k => ?_, fun k tags c hk => getTags_hit fetch k tags c hk⟩
  · have := runRequests_log_count fetch keys [] [] c2 log h k
    simpa using this
  · have := runRequests_cache_count fetch keys [] [] c2 log h k
    simpa using this

/-- C9, witness: two targets sharing minor version "16.8" trigger exactly
one fetch, one store, and a hit that returns the stored list unchanged. -/
theorem tagCache_fetch_once_witness :
    (∀ k, List.count k ["16.8"] = if k ∈ ["16.8", "16.8"] then 1 else 0)
    ∧ (∀ k, (([("16.8", ([] : List GitlabTag))] : Cache).map Prod.fst).count k
        = if k ∈ ["16.8", "16.8"] then 1 else 0)
    ∧ (∀ k tags c, alookup k c = some tags →
        getTagsForMinorVersion (fun _ => .ok ([] : List GitlabTag)) c k
          = .ok (tags, c)) :=
  tagCache_fetch_once (fun _ => .ok []) ["16.8", "16.8"] [("16.8", [])] ["16.8"] rfl

/-! ### Claim C10 -/

def env10c : Env where
  hashDictionary := [("hY", ⟨"gitlab-omnibus", ["16.8.7"]⟩)]
  gitlabVersionsInfo := []
  fetchTags := fun _ => .ok []
  now := 1000000
  today := 200
  parseDate := fun _ => none
  timeStr := fun _ => "LM"

def t10c : TargetInput := ⟨"host10c", "https://host10c/assets/webpack/manifest.json",
  .ok ⟨"hY", 100, "gitlab-foo"⟩⟩

/-- C10, counterexample: with the unrecognized build label "gitlab-omnibus"
the emitted result has edition "unknown" but an empty warnings list — the
diagnostic goes to the run's error list as an `Error` record instead of
being attached to the result as a warning, contrary to the claim. -/
theorem unknownEdition_error_not_warning :
    processTarget env10c [] t10c =
      Except.ok ([⟨"host10c", "16.8.7", "unknown", false, false, []⟩],
        [⟨"host10c", "Could not determine Edition",
          "the following edition was returned in the hash results: gitlab-omnibus"⟩],
        []) := rfl

/-- C10, amended: the edition is derived from the build label by the fixed
mapping gitlab-ee to "enterprise" and gitlab-ce to "community"; any other
label yields edition "unknown" plus an `Error` record (target, "Could not
determine Edition", details naming the label) appended to the run's error
list — non-fatal: resolution of that target continues and its result is
still emitted. Stated on the single-candidate path, where the version
resolves directly. -/
theorem edition_mapping (env : Env) (cache : Cache) (t : TargetInput)
    (m : Manifest) (info : HashDictEntry) (v mi : String)
    (st : Bool × Bool × List String)
    (hm : t.manifest = .ok m)
    (hsub : hasSub "gitlab".data m.outputPath.data = true)
    (hinfo : alookup m.hash env.hashDictionary = some info)
    (hv : info.versions = [v])
    (hmi : minorOfVersion v = some mi)
    (heol : eolCheck env v mi env.gitlabVersionsInfo (false, false, []) = some st) :
    (info.build = "gitlab-ee" →
      processTarget env cache t =
        .ok ([⟨t.host, v, "enterprise", st.1, st.2.1, st.2.2⟩], [], cache))
    ∧ (info.build = "gitlab-ce" →
      processTarget env cache t =
        .ok ([⟨t.host, v, "community", st.1, st.2.1, st.2.2⟩], [], cache))
    ∧ (info.build ≠ "gitlab-ee" → info.build ≠ "gitlab-ce" →
      processTarget env cache t =
        .ok ([⟨t.host, v, "unknown", st.1, st.2.1, st.2.2⟩],
          [⟨t.host, "Could not determine Edition",
            "the following edition was returned in the hash results: " ++ info.build⟩],
          cache)) := by
  have hres : resolveVersion env cache t.host m info = .ok (v, [], cache) := by
    unfold resolveVersion
    rw [hv]
    rfl
  refine ⟨fun hb => ?_, fun hb => ?_, fun hb1 hb2 => ?_⟩
  · have hed : editionFor t.host info.build = ("enterprise", []) := by
      unfold editionFor
      rw [hb]
      rfl
    simp only [processTarget, hm, hsub, if_true, hinfo, hres, hed, hmi, heol]
    rfl
  · have hed : editionFor t.host info.build = ("community", []) := by
      unfold editionFor
      rw [hb]
      rfl
    simp only [processTarget, hm, hsub, if_true, hinfo, hres, hed, hmi, heol]
    rfl
  · have hed : editionFor t.host info.build =
        ("unknown",
          [⟨t.host, "Could not determine Edition",
            "the following edition was returned in the hash results: " ++ info.build⟩]) := by
      unfold editionFor
      rw [if_neg hb1, if_neg hb2]
    simp only [processTarget, hm, hsub, if_true, hinfo, hres, hed, hmi, heol]
    rfl

def env10w : Env where
  hashDictionary := [("hX", ⟨"gitlab-super", ["16.8.7"]⟩)]
  gitlabVersionsInfo := []
  fetchTags := fun _ => .ok []
  now := 1000000
  today := 200
  parseDate := fun _ => none
  timeStr := fun _ => "LM"

def t10w : TargetInput := ⟨"host10", "https://host10/assets/webpack/manifest.json",
  .ok ⟨"hX", 100, "gitlab-foo"⟩⟩

/-- C10, witness: the amended theorem applied at a concrete input with the
unrecognized label "gitlab-super". -/
theorem edition_mapping_witness :
    (("gitlab-super" : String) = "gitlab-ee" →
      processTarget env10w [] t10w =
        .ok ([⟨"host10", "16.8.7", "enterprise", false, false, []⟩], [], []))
    ∧ (("gitlab-super" : String) = "gitlab-ce" →
      processTarget env10w [] t10w =
        .ok ([⟨"host10", "16.8.7", "community", false, false, []⟩], [], []))
    ∧ (("gitlab-super" : String) ≠ "gitlab-ee" → ("gitlab-super" : String) ≠ "gitlab-ce" →
      processTarget env10w [] t10w =
        .ok ([⟨"host10", "16.8.7", "unknown", false, false, []⟩],
          [⟨"host10", "Could not determine Edition",
            "the following edition was returned in the hash results: gitlab-super"⟩],
          [])) :=
  edition_mapping env10w [] t10w ⟨"hX", 100, "gitlab-foo"⟩
    ⟨"gitlab-super", ["16.8.7"]⟩ "16.8.7" "16.8" (false, false, [])
    rfl rfl rfl rfl rfl rfl
